import Mathlib

/-!
Verification development for the logging facility of LQFStreamer
(`src/QTStreamer/ZLToolKit/src/Util/logger.h`).

The repository ships only the header: class and method declarations, the
`LogLevel` enum, default arguments, and the inline template
`LogContextCapturer::operator<<`.  Those parts are embedded directly from
the source.  Method bodies live in a `logger.cpp` that is not part of the
repository's files; such operations are modelled from the specification's
words and are marked `Modelled from the spec:` in their doc comments.
-/

namespace toolkit

/-- Embeds the `LogLevel` enum (logger.h line 46):
`typedef enum { LTrace = 0, LDebug, LInfo, LWarn, LError } LogLevel;`. -/
inductive LogLevel where
  | LTrace
  | LDebug
  | LInfo
  | LWarn
  | LError
deriving DecidableEq

/-- Numeric value of each enumerator, as assigned by the C enum
(`LTrace = 0` and the rest consecutive). -/
def LogLevel.toNat : LogLevel → Nat
  | .LTrace => 0
  | .LDebug => 1
  | .LInfo => 2
  | .LWarn => 3
  | .LError => 4

/-- The C++ comparison `a >= b` on `LogLevel` values (enum compared by its
underlying integer value). -/
def levelGe (a b : LogLevel) : Bool := decide (b.toNat ≤ a.toNat)

/-- Embeds `LogContext` (logger.h lines 119-139): level, source location,
timestamp and the inherited `ostringstream` message buffer (`_message`). -/
structure LogContext where
  _level : LogLevel
  _line : Int
  _file : String
  _function : String
  _tv_sec : Int
  _tv_usec : Int
  _message : String
deriving DecidableEq

/-- Embeds `LogChannel` (logger.h lines 207-218): a named sink with a
minimum-level filter `_level`. -/
structure LogChannel where
  _name : String
  _level : LogLevel
deriving DecidableEq

/-- Modelled from the spec: body of `LogChannel::setLevel` (declared at
logger.h line 214, defined in the missing logger.cpp); it stores the new
minimum level and touches nothing else. -/
def LogChannel.setLevel (ch : LogChannel) (level : LogLevel) : LogChannel :=
  { ch with _level := level }

/-- Lexicographic comparison on character lists, the order
`std::string::operator<` uses (element-wise comparison, shorter
sequence first on a tie). -/
def listCharLtb : List Char → List Char → Bool
  | [], [] => false
  | [], _ :: _ => true
  | _ :: _, [] => false
  | c :: cs, d :: ds =>
    if c.toNat < d.toNat then true
    else if d.toNat < c.toNat then false
    else listCharLtb cs ds

/-- The `std::map` key order on `std::string` keys: lexicographic. -/
def strLtb (a b : String) : Bool := listCharLtb a.data b.data

/-- Insertion into `std::map<string, _>` (the type of `Logger::_channels`,
logger.h line 111): the entry is placed by key comparison, replacing an
equal key; iteration order of a `std::map` is ascending key order, which
this association list realises by keeping keys sorted. -/
def mapInsert (k : String) (v : LogChannel) :
    List (String × LogChannel) → List (String × LogChannel)
  | [] => [(k, v)]
  | (k2, v2) :: rest =>
    if strLtb k k2 then (k, v) :: (k2, v2) :: rest
    else if k = k2 then (k, v) :: rest
    else (k2, v2) :: mapInsert k v rest

/-- Erasure from `std::map<string, _>`: removes the entry with the given
key, if present. -/
def mapErase (k : String) :
    List (String × LogChannel) → List (String × LogChannel)
  | [] => []
  | (k2, v2) :: rest =>
    if k = k2 then rest else (k2, v2) :: mapErase k rest

/-- Lookup in `std::map<string, _>`: the value stored at the key, if any. -/
def mapFind (k : String) :
    List (String × LogChannel) → Option LogChannel
  | [] => none
  | (k2, v2) :: rest => if k = k2 then some v2 else mapFind k rest

/-- Embeds the `Logger` state (logger.h lines 110-113): `_channels` is the
`std::map<string, std::shared_ptr<LogChannel>>` sink registry, here an
association list in ascending key order (the map's iteration order). -/
structure Logger where
  _channels : List (String × LogChannel)
deriving DecidableEq

/-- The default-constructed `Logger` (private constructor, logger.h
line 107): its `std::map` member default-constructs empty. -/
def Logger.empty : Logger := ⟨[]⟩

/-- Modelled from the spec: body of `Logger::add` (declared at logger.h
line 80, defined in the missing logger.cpp); `addSink(sink)` inserts or
replaces a sink under its own name in the `std::map` registry. -/
def Logger.add (lg : Logger) (ch : LogChannel) : Logger :=
  ⟨mapInsert ch._name ch lg._channels⟩

/-- Modelled from the spec: body of `Logger::del` (declared at logger.h
line 86, defined in the missing logger.cpp); `removeSink(name)` removes a
sink by name, and an absent name is a no-op. -/
def Logger.del (lg : Logger) (name : String) : Logger :=
  ⟨mapErase name lg._channels⟩

/-- Modelled from the spec: body of `Logger::get` (declared at logger.h
line 93, defined in the missing logger.cpp); `getSink(name)` looks the
name up and returns a null result if absent. -/
def Logger.get (lg : Logger) (name : String) : Option LogChannel :=
  mapFind name lg._channels

/-- Modelled from the spec: body of `Logger::setLevel` (declared at
logger.h line 105, defined in the missing logger.cpp); it sets the minimum
level on every currently registered sink. -/
def Logger.setLevel (lg : Logger) (level : LogLevel) : Logger :=
  ⟨lg._channels.map (fun p => (p.1, p.2.setLevel level))⟩

/-- Modelled from the spec: body of `Logger::writeChannels` (declared at
logger.h line 108, defined in the missing logger.cpp); the fan-out pass:
for each registered sink in the registry's iteration order, if
`record.level >= sink.level`, call `sink.write(record)`.  The result lists
the `write` invocations as (sink name, record) pairs, in invocation
order. -/
def Logger.writeChannels (lg : Logger) (ctx : LogContext) :
    List (String × LogContext) :=
  lg._channels.filterMap (fun p =>
    if levelGe ctx._level p.2._level then some (p.1, ctx) else none)

/-- Registers a list of channels one after another (repeated
`Logger::add` calls, in the list's order). -/
def Logger.addAll (lg : Logger) (chs : List LogChannel) : Logger :=
  chs.foldl Logger.add lg

/-- The sink names in the order the sinks were registered. -/
def registrationOrder (chs : List LogChannel) : List String :=
  chs.map LogChannel._name

/-- Modelled from the spec: a sink's `write` with the sink's own error
policy.  `fails` says which sinks raise an I/O problem on `write`; a
failing write returns an error that the fan-out absorbs. -/
def LogChannel.writeE (fails : String → Bool) (ch : LogChannel)
    (_ctx : LogContext) : Except String Unit :=
  if fails ch._name then Except.error "io failure" else Except.ok ()

/-- Modelled from the spec: the fan-out of `Logger::writeChannels` when
some sinks fail, per the spec's isolation rule: each sink's failure is
silently absorbed and never stops delivery to subsequent sinks nor
propagates to the caller.  The result records, in invocation order, each
visited sink's name with whether its write succeeded. -/
def Logger.writeChannelsF (lg : Logger) (fails : String → Bool)
    (ctx : LogContext) : List (String × Bool) :=
  lg._channels.filterMap (fun p =>
    if levelGe ctx._level p.2._level then
      some (p.1, match p.2.writeE fails ctx with
        | Except.ok _ => true
        | Except.error _ => false)
    else none)

/-- Embeds `LogContextCapturer` (logger.h lines 144-172): `_logContext`
holds the record being built; a null pointer (here `none`) after handoff
or `clear`. -/
structure LogContextCapturer where
  _logContext : Option LogContext
deriving DecidableEq

/-- Embeds the inline template `LogContextCapturer::operator<<` (logger.h
lines 159-166): if `_logContext` is null the append returns `*this`
unchanged; otherwise the data is appended to the record's stream
buffer. -/
def LogContextCapturer.appendData (cap : LogContextCapturer)
    (data : String) : LogContextCapturer :=
  match cap._logContext with
  | none => cap
  | some ctx => ⟨some { ctx with _message := ctx._message ++ data }⟩

/-- Modelled from the spec: body of `LogContextCapturer::clear` (declared
at logger.h line 168, defined in the missing logger.cpp); clearing
discards the buffered text and prevents handoff, i.e. it releases
`_logContext`. -/
def LogContextCapturer.clear (_cap : LogContextCapturer) :
    LogContextCapturer :=
  ⟨none⟩

/-- Modelled from the spec: body of
`LogContextCapturer::operator<<(ostream &(*f)(ostream &))` (declared at
logger.h line 157, defined in the missing logger.cpp): appending
`std::endl` forces immediate handoff of the record being built and nulls
`_logContext` so no second handoff can occur.  Returns the record handed
off (if any) with the capturer's new state. -/
def LogContextCapturer.endlFlush (cap : LogContextCapturer) :
    Option LogContext × LogContextCapturer :=
  match cap._logContext with
  | none => (none, cap)
  | some ctx => (some ctx, ⟨none⟩)

/-- Modelled from the spec: body of
`LogContextCapturer::~LogContextCapturer` (declared at logger.h line 150,
defined in the missing logger.cpp): on destruction, if the buffer is
non-empty the finished record is handed off exactly once; if the buffer
is empty (never appended to, or explicitly cleared) no record is
emitted.  Returns the record handed off, if any. -/
def LogContextCapturer.dtorEmit (cap : LogContextCapturer) :
    Option LogContext :=
  match cap._logContext with
  | none => none
  | some ctx => if ctx._message = "" then none else some ctx

/-- Embeds the `AsyncLogWriter` state (logger.h lines 194-200):
`_exit_flag` and the `deque<LogContextPtr> _pending` queue.  The thread,
semaphore and mutex members carry no queue contents and are represented
by the sequential semantics below. -/
structure AsyncLogWriter where
  _exit_flag : Bool
  _pending : List LogContext
deriving DecidableEq

/-- Modelled from the spec: body of `AsyncLogWriter::write` (declared at
logger.h line 193, defined in the missing logger.cpp): under the mutex,
append the record to the tail of the queue, then signal the worker. -/
def AsyncLogWriter.write (w : AsyncLogWriter) (ctx : LogContext) :
    AsyncLogWriter :=
  { w with _pending := w._pending ++ [ctx] }

/-- Modelled from the spec: body of `AsyncLogWriter::flushAll` (declared
at logger.h line 192, defined in the missing logger.cpp): swap the whole
queue into a local batch under the lock, then fan out each record of the
batch in original order.  Returns the concatenated `write` invocations
and the writer with its queue emptied. -/
def AsyncLogWriter.flushAll (lg : Logger) (w : AsyncLogWriter) :
    List (String × LogContext) × AsyncLogWriter :=
  ((w._pending.map (fun ctx => lg.writeChannels ctx)).flatten,
   { w with _pending := [] })

/-- Observable events of the `AsyncLogWriter` shutdown sequence. -/
inductive AwEvent where
  | deliver (sink : String) (ctx : LogContext)
  | workerExit
  | dtorReturn
deriving DecidableEq

/-- The delivery events of the final drain the worker performs after the
exit flag is set (each `sink.write(record)` call, in order). -/
def AsyncLogWriter.finalDrain (lg : Logger) (w : AsyncLogWriter) :
    List AwEvent :=
  (AsyncLogWriter.flushAll lg w).1.map (fun p => AwEvent.deliver p.1 p.2)

/-- Modelled from the spec: body of `AsyncLogWriter::~AsyncLogWriter`
(declared at logger.h line 189, defined in the missing logger.cpp):
setting the exit flag and waking the worker once more makes the worker
perform one last full drain, fan the drained records out, and terminate;
the destructor blocks on the join and returns only afterwards.  The
sequential event trace: every delivery, then the worker's exit, then the
destructor's return. -/
def AsyncLogWriter.destroy (lg : Logger) (w : AsyncLogWriter) :
    List AwEvent :=
  AsyncLogWriter.finalDrain lg w ++ [AwEvent.workerExit, AwEvent.dtorReturn]

/-- Models `LogChannel::LogChannel` called without an explicit level
argument (logger.h line 209): the declared default is `LDebug`, and the
constructor stores the name and level. -/
def LogChannel.ctorDefault (name : String) : LogChannel :=
  ⟨name, LogLevel.LDebug⟩

/-- Embeds `ConsoleChannel` (logger.h lines 223-228): a `LogChannel`
writing to the terminal. -/
structure ConsoleChannel where
  toLogChannel : LogChannel
deriving DecidableEq

/-- Models `ConsoleChannel::ConsoleChannel` called without explicit
arguments (logger.h line 225): declared defaults are name
`"ConsoleChannel"` and level `LDebug`. -/
def ConsoleChannel.ctorDefault : ConsoleChannel :=
  ⟨LogChannel.ctorDefault "ConsoleChannel"⟩

/-- Embeds `FileChannel` (logger.h lines 233-247): a `LogChannel` with an
output path. -/
structure FileChannel where
  toLogChannel : LogChannel
  _path : String
deriving DecidableEq

/-- Models `FileChannel::FileChannel` called without an explicit level
argument (logger.h line 235): declared defaults are name `"FileChannel"`
and level `LDebug`; the path argument is kept explicit since its default
derives from the executable path. -/
def FileChannel.ctorDefault (path : String) : FileChannel :=
  ⟨LogChannel.ctorDefault "FileChannel", path⟩

/-- Sample record at level `LError` for concrete instantiations. -/
def ctxError : LogContext :=
  ⟨LogLevel.LError, 10, "main.cpp", "main", 100, 0, "boom"⟩

/-- Sample record at level `LInfo` for concrete instantiations. -/
def ctxInfo : LogContext :=
  ⟨LogLevel.LInfo, 11, "main.cpp", "main", 100, 1, "hello"⟩

/-- Sample record at level `LTrace` for concrete instantiations. -/
def ctxTrace : LogContext :=
  ⟨LogLevel.LTrace, 12, "main.cpp", "main", 100, 2, "tick"⟩

/-- Sample channel named "a" admitting everything. -/
def chA : LogChannel := ⟨"a", LogLevel.LTrace⟩

/-- Sample channel named "b" admitting everything. -/
def chB : LogChannel := ⟨"b", LogLevel.LTrace⟩

/-- Sample logger holding the channels "a" and "b". -/
def lgAB : Logger := Logger.empty.addAll [chB, chA]

/- ## Helper lemmas about the key order and the map model -/

/-- Characters with equal code points are equal. -/
theorem charEq_of_toNat_eq {c d : Char} (h : c.toNat = d.toNat) : c = d :=
  Char.ext (UInt32.ext h)

/-- The lexicographic order on character lists is transitive. -/
theorem listCharLtb_trans {a b c : List Char} (hab : listCharLtb a b = true)
    (hbc : listCharLtb b c = true) : listCharLtb a c = true := by
  induction a generalizing b c with
  | nil =>
    cases b with
    | nil => simp [listCharLtb] at hab
    | cons d ds =>
      cases c with
      | nil => simp [listCharLtb] at hbc
      | cons e es => simp [listCharLtb]
  | cons x xs ih =>
    cases b with
    | nil => simp [listCharLtb] at hab
    | cons d ds =>
      cases c with
      | nil => simp [listCharLtb] at hbc
      | cons e es =>
        simp only [listCharLtb] at hab hbc ⊢
        rcases Nat.lt_trichotomy x.toNat d.toNat with h1 | h1 | h1
        · rcases Nat.lt_trichotomy d.toNat e.toNat with h2 | h2 | h2
          · rw [if_pos (show x.toNat < e.toNat by omega)]
          · rw [if_pos (show x.toNat < e.toNat by omega)]
          · rw [if_neg (show ¬ d.toNat < e.toNat by omega),
              if_pos (show e.toNat < d.toNat by omega)] at hbc
            exact absurd hbc (by simp)
        · rcases Nat.lt_trichotomy d.toNat e.toNat with h2 | h2 | h2
          · rw [if_pos (show x.toNat < e.toNat by omega)]
          · rw [if_neg (show ¬ x.toNat < d.toNat by omega),
              if_neg (show ¬ d.toNat < x.toNat by omega)] at hab
            rw [if_neg (show ¬ d.toNat < e.toNat by omega),
              if_neg (show ¬ e.toNat < d.toNat by omega)] at hbc
            rw [if_neg (show ¬ x.toNat < e.toNat by omega),
              if_neg (show ¬ e.toNat < x.toNat by omega)]
            exact ih hab hbc
          · rw [if_neg (show ¬ d.toNat < e.toNat by omega),
              if_pos (show e.toNat < d.toNat by omega)] at hbc
            exact absurd hbc (by simp)
        · rw [if_neg (show ¬ x.toNat < d.toNat by omega),
            if_pos (show d.toNat < x.toNat by omega)] at hab
          exact absurd hab (by simp)

/-- Distinct character lists compare strictly in one direction or the
other: if `a` is not below `b` and differs from it, `b` is below `a`. -/
theorem listCharLtb_total_ne {a b : List Char} (hne : a ≠ b)
    (hab : listCharLtb a b = false) : listCharLtb b a = true := by
  induction a generalizing b with
  | nil =>
    cases b with
    | nil => exact absurd rfl hne
    | cons d ds => simp [listCharLtb] at hab
  | cons x xs ih =>
    cases b with
    | nil => simp [listCharLtb]
    | cons d ds =>
      simp only [listCharLtb] at hab ⊢
      rcases Nat.lt_trichotomy x.toNat d.toNat with h1 | h1 | h1
      · rw [if_pos h1] at hab
        exact absurd hab (by simp)
      · have hxd : x = d := charEq_of_toNat_eq h1
        subst hxd
        have hne2 : xs ≠ ds := fun h => hne (by rw [h])
        rw [if_neg (show ¬ x.toNat < x.toNat by omega),
          if_neg (show ¬ x.toNat < x.toNat by omega)] at hab ⊢
        exact ih hne2 hab
      · rw [if_pos h1]

/-- The string key order is transitive. -/
theorem strLtb_trans {a b c : String} (hab : strLtb a b = true)
    (hbc : strLtb b c = true) : strLtb a c = true :=
  listCharLtb_trans hab hbc

/-- Distinct string keys compare strictly in one direction or the other. -/
theorem strLtb_total_ne {a b : String} (hne : a ≠ b)
    (hab : strLtb a b = false) : strLtb b a = true :=
  listCharLtb_total_ne (fun h => hne (String.ext h)) hab

/-- Every key of `mapInsert k v l` is `k` or a key of `l`. -/
theorem mapInsert_keys_mem {k n : String} {v : LogChannel}
    {l : List (String × LogChannel)}
    (h : n ∈ (mapInsert k v l).map Prod.fst) :
    n = k ∨ n ∈ l.map Prod.fst := by
  induction l with
  | nil =>
    simp only [mapInsert, List.map_cons, List.map_nil,
      List.mem_singleton] at h
    exact Or.inl h
  | cons p rest ih =>
    obtain ⟨k2, v2⟩ := p
    simp only [mapInsert] at h
    by_cases hc : strLtb k k2 = true
    · rw [if_pos hc] at h
      simp only [List.map_cons, List.mem_cons] at h
      rcases h with h | h | h
      · exact Or.inl h
      · exact Or.inr (by simp only [List.map_cons, List.mem_cons]; exact Or.inl h)
      · exact Or.inr (by simp only [List.map_cons, List.mem_cons]; exact Or.inr h)
    · rw [if_neg hc] at h
      by_cases he : k = k2
      · rw [if_pos he] at h
        simp only [List.map_cons, List.mem_cons] at h
        rcases h with h | h
        · exact Or.inl h
        · exact Or.inr (by simp only [List.map_cons, List.mem_cons]; exact Or.inr h)
      · rw [if_neg he] at h
        simp only [List.map_cons, List.mem_cons] at h
        rcases h with h | h
        · exact Or.inr (by simp only [List.map_cons, List.mem_cons]; exact Or.inl h)
        · rcases ih h with h2 | h2
          · exact Or.inl h2
          · exact Or.inr (by simp only [List.map_cons, List.mem_cons]; exact Or.inr h2)

/-- Insertion keeps the map's keys strictly ascending. -/
theorem mapInsert_keys_pairwise {k : String} {v : LogChannel}
    {l : List (String × LogChannel)}
    (h : (l.map Prod.fst).Pairwise (fun a b => strLtb a b = true)) :
    ((mapInsert k v l).map Prod.fst).Pairwise
      (fun a b => strLtb a b = true) := by
  induction l with
  | nil => simp [mapInsert]
  | cons p rest ih =>
    obtain ⟨k2, v2⟩ := p
    simp only [List.map_cons, List.pairwise_cons] at h
    obtain ⟨h1, h2⟩ := h
    simp only [mapInsert]
    by_cases hc : strLtb k k2 = true
    · simp only [if_pos hc, List.map_cons, List.pairwise_cons]
      refine ⟨?_, ?_, h2⟩
      · intro b hb
        rcases List.mem_cons.mp hb with hb | hb
        · exact hb ▸ hc
        · exact strLtb_trans hc (h1 b hb)
      · exact h1
    · by_cases he : k = k2
      · simp only [if_neg hc, if_pos he, List.map_cons, List.pairwise_cons]
        exact ⟨fun b hb => he ▸ h1 b hb, h2⟩
      · simp only [if_neg hc, if_neg he, List.map_cons, List.pairwise_cons]
        refine ⟨?_, ih h2⟩
        intro b hb
        rcases mapInsert_keys_mem hb with hb | hb
        · subst hb
          exact strLtb_total_ne he (Bool.eq_false_iff.mpr hc)
        · exact h1 b hb

/-- The keys of a logger built by registrations from the empty logger are
strictly ascending (the `std::map` invariant). -/
theorem addAll_keys_pairwise (chs : List LogChannel) :
    ((Logger.empty.addAll chs)._channels.map Prod.fst).Pairwise
      (fun a b => strLtb a b = true) := by
  have main : ∀ (cs : List LogChannel) (lg : Logger),
      (lg._channels.map Prod.fst).Pairwise (fun a b => strLtb a b = true) →
      ((lg.addAll cs)._channels.map Prod.fst).Pairwise
        (fun a b => strLtb a b = true) := by
    intro cs
    induction cs with
    | nil => intro lg h; exact h
    | cons c rest ih =>
      intro lg h
      exact ih (lg.add c) (mapInsert_keys_pairwise h)
  exact main chs Logger.empty (by simp [Logger.empty])

/-- The sinks a fan-out pass visits are a subsequence of the registry. -/
theorem writeChannels_keys_sublist (lg : Logger) (ctx : LogContext) :
    ((lg.writeChannels ctx).map Prod.fst).Sublist
      (lg._channels.map Prod.fst) := by
  unfold Logger.writeChannels
  induction lg._channels with
  | nil => simp
  | cons p rest ih =>
    simp only [List.filterMap_cons]
    by_cases hc : levelGe ctx._level p.2._level = true
    · rw [if_pos hc]
      simp only [List.map_cons]
      exact ih.cons₂ p.1
    · rw [if_neg hc]
      exact ih.cons p.1

/-- A record admitted by a registered sink's filter is delivered to it. -/
theorem mem_writeChannels {lg : Logger} {ctx : LogContext} {n : String}
    {ch : LogChannel} (hch : (n, ch) ∈ lg._channels)
    (hlev : levelGe ctx._level ch._level = true) :
    (n, ctx) ∈ lg.writeChannels ctx := by
  unfold Logger.writeChannels
  exact List.mem_filterMap.mpr ⟨(n, ch), hch, by simp [hlev]⟩

/-- With no duplicate names, a name determines its channel. -/
theorem keys_nodup_val_eq {l : List (String × LogChannel)} {n : String}
    {ch ch2 : LogChannel} (hnd : (l.map Prod.fst).Nodup)
    (h1 : (n, ch) ∈ l) (h2 : (n, ch2) ∈ l) : ch = ch2 := by
  induction l with
  | nil => cases h1
  | cons p rest ih =>
    simp only [List.map_cons, List.nodup_cons] at hnd
    rcases List.mem_cons.mp h1 with e1 | m1
    · rcases List.mem_cons.mp h2 with e2 | m2
      · rw [← e1] at e2
        exact (congrArg Prod.snd e2).symm
      · exfalso
        apply hnd.1
        rw [← e1]
        exact List.mem_map.mpr ⟨(n, ch2), m2, rfl⟩
    · rcases List.mem_cons.mp h2 with e2 | m2
      · exfalso
        apply hnd.1
        rw [← e2]
        exact List.mem_map.mpr ⟨(n, ch), m1, rfl⟩
      · exact ih hnd.2 m1 m2

/- ## The claims -/

/-- C1: for every record delivered by a fan-out pass and every registered
sink (sink names unique, the registry's `std::map` invariant), the sink's
write is invoked with the record iff the record's level is at least the
sink's minimum level, the level order being
Trace < Debug < Info < Warn < Error. -/
theorem writeChannels_level_filter (lg : Logger) (ctx : LogContext)
    (n : String) (ch : LogChannel)
    (hnd : (lg._channels.map Prod.fst).Nodup)
    (hmem : (n, ch) ∈ lg._channels) :
    ((n, ctx) ∈ lg.writeChannels ctx ↔ levelGe ctx._level ch._level = true)
    ∧ (∀ a b : LogLevel, levelGe a b = true ↔ b.toNat ≤ a.toNat)
    ∧ LogLevel.LTrace.toNat < LogLevel.LDebug.toNat
    ∧ LogLevel.LDebug.toNat < LogLevel.LInfo.toNat
    ∧ LogLevel.LInfo.toNat < LogLevel.LWarn.toNat
    ∧ LogLevel.LWarn.toNat < LogLevel.LError.toNat := by
  refine ⟨⟨?_, fun h => mem_writeChannels hmem h⟩,
    fun a b => by simp [levelGe], by decide, by decide, by decide, by decide⟩
  intro hin
  obtain ⟨⟨n2, ch2⟩, hin2, heq⟩ := List.mem_filterMap.mp hin
  by_cases hc : levelGe ctx._level ch2._level = true
  · rw [if_pos hc] at heq
    injection heq with heq2
    have hn : n2 = n := congrArg Prod.fst heq2
    subst hn
    rw [keys_nodup_val_eq hnd hmem hin2]
    exact hc
  · rw [if_neg hc] at heq
    cases heq

/-- Witness for C1: at a concrete two-sink logger and an Info record. -/
theorem writeChannels_level_filter_witness :
    (("a", ctxInfo) ∈ lgAB.writeChannels ctxInfo ↔
      levelGe ctxInfo._level chA._level = true)
    ∧ (∀ a b : LogLevel, levelGe a b = true ↔ b.toNat ≤ a.toNat)
    ∧ LogLevel.LTrace.toNat < LogLevel.LDebug.toNat
    ∧ LogLevel.LDebug.toNat < LogLevel.LInfo.toNat
    ∧ LogLevel.LInfo.toNat < LogLevel.LWarn.toNat
    ∧ LogLevel.LWarn.toNat < LogLevel.LError.toNat :=
  writeChannels_level_filter lgAB ctxInfo "a" chA (by decide) (by decide)

/-- C3 counterexample: registering sink "b" before sink "a" (both at
level Trace), a fan-out pass for an Error record visits "a" first — the
`std::map` registry iterates in name order, not registration order. -/
theorem fanout_order_counterexample :
    ((Logger.empty.addAll [chB, chA]).writeChannels ctxError).map Prod.fst
      ≠ registrationOrder [chB, chA] := by decide

/-- C3 (amended): for every record, a single fan-out pass visits the
registered sinks in strictly ascending lexicographic order of their
names (the `std::map` iteration order); this equals registration order
only when sinks happen to be registered in ascending name order. -/
theorem fanout_order_name_sorted (chs : List LogChannel)
    (ctx : LogContext) :
    (((Logger.empty.addAll chs).writeChannels ctx).map Prod.fst).Pairwise
      (fun a b => strLtb a b = true) :=
  (addAll_keys_pairwise chs).sublist (writeChannels_keys_sublist _ ctx)

/-- C2: every record in the Deferred writer's queue when destruction
begins is delivered, in the final drain, to every then-registered sink
whose filter admits it before the worker-exit event, and the destructor's
return event comes only after the worker's exit (zero record loss on
clean shutdown). -/
theorem async_clean_shutdown (lg : Logger) (w : AsyncLogWriter)
    (ctx : LogContext) (n : String) (ch : LogChannel)
    (hq : ctx ∈ w._pending) (hch : (n, ch) ∈ lg._channels)
    (hlev : levelGe ctx._level ch._level = true) :
    AwEvent.deliver n ctx ∈ AsyncLogWriter.finalDrain lg w
    ∧ AsyncLogWriter.destroy lg w
        = AsyncLogWriter.finalDrain lg w
            ++ [AwEvent.workerExit, AwEvent.dtorReturn] := by
  refine ⟨?_, rfl⟩
  unfold AsyncLogWriter.finalDrain AsyncLogWriter.flushAll
  apply List.mem_map.mpr
  refine ⟨(n, ctx), ?_, rfl⟩
  apply List.mem_flatten.mpr
  exact ⟨lg.writeChannels ctx, List.mem_map.mpr ⟨ctx, hq, rfl⟩,
    mem_writeChannels hch hlev⟩

/-- Witness for C2: one queued Error record and the sink "a". -/
theorem async_clean_shutdown_witness :
    AwEvent.deliver "a" ctxError
      ∈ AsyncLogWriter.finalDrain lgAB ⟨false, [ctxError]⟩
    ∧ AsyncLogWriter.destroy lgAB ⟨false, [ctxError]⟩
        = AsyncLogWriter.finalDrain lgAB ⟨false, [ctxError]⟩
            ++ [AwEvent.workerExit, AwEvent.dtorReturn] :=
  async_clean_shutdown lgAB ⟨false, [ctxError]⟩ ctxError "a" chA
    (by decide) (by decide) (by decide)

/-- C4: the Deferred writer's queue is FIFO: enqueues append at the tail
in submission order, and one worker wake's `flushAll` drains the entire
current queue in a single batch, fanning out each drained record in the
original enqueue order and leaving the queue empty. -/
theorem async_fifo_drain (lg : Logger) (w : AsyncLogWriter)
    (rs : List LogContext) :
    ((rs.foldl AsyncLogWriter.write w)._pending = w._pending ++ rs)
    ∧ ((AsyncLogWriter.flushAll lg
          (rs.foldl AsyncLogWriter.write ⟨false, []⟩)).1
        = (rs.map (fun ctx => lg.writeChannels ctx)).flatten)
    ∧ ((AsyncLogWriter.flushAll lg w).2._pending = []) := by
  have henq : ∀ (rs : List LogContext) (w : AsyncLogWriter),
      (rs.foldl AsyncLogWriter.write w)._pending = w._pending ++ rs := by
    intro rs
    induction rs with
    | nil => intro w; simp
    | cons r rest ih =>
      intro w
      simp only [List.foldl_cons]
      rw [ih]
      simp [AsyncLogWriter.write]
  refine ⟨henq rs w, ?_, rfl⟩
  show ((rs.foldl AsyncLogWriter.write ⟨false, []⟩)._pending.map
      (fun ctx => lg.writeChannels ctx)).flatten = _
  rw [henq rs ⟨false, []⟩]
  simp

/-- C5: a Builder hands the finished record off exactly once: destruction
with a non-empty buffer emits the record once; destruction with an empty
buffer (never appended to) or a released context emits nothing; an
end-of-line flush hands the record off immediately and destruction
afterwards emits nothing more. -/
theorem capturer_single_handoff (ctx : LogContext) :
    (ctx._message ≠ "" →
      LogContextCapturer.dtorEmit ⟨some ctx⟩ = some ctx)
    ∧ (ctx._message = "" → LogContextCapturer.dtorEmit ⟨some ctx⟩ = none)
    ∧ LogContextCapturer.dtorEmit ⟨none⟩ = none
    ∧ (LogContextCapturer.endlFlush ⟨some ctx⟩).1 = some ctx
    ∧ LogContextCapturer.dtorEmit
        (LogContextCapturer.endlFlush ⟨some ctx⟩).2 = none := by
  refine ⟨?_, ?_, rfl, rfl, rfl⟩
  · intro h
    simp [LogContextCapturer.dtorEmit, h]
  · intro h
    simp [LogContextCapturer.dtorEmit, h]

/-- C6: appending after the record was handed off (the end-of-line flush
released `_logContext`) or after `clear` changes no state and returns the
same Builder, and `clear` discards the buffered text so that destruction
emits no record. -/
theorem capturer_append_noop (cap : LogContextCapturer) (data : String) :
    ((cap.endlFlush).2.appendData data = (cap.endlFlush).2)
    ∧ ((cap.clear).appendData data = cap.clear)
    ∧ LogContextCapturer.dtorEmit (cap.clear) = none := by
  refine ⟨?_, rfl, rfl⟩
  obtain ⟨lc⟩ := cap
  cases lc with
  | none => rfl
  | some ctx => rfl

/-- The sequence of sinks a failing fan-out visits is the sequence the
plain fan-out visits. -/
theorem writeChannelsF_keys (lg : Logger) (fails : String → Bool)
    (ctx : LogContext) :
    (lg.writeChannelsF fails ctx).map Prod.fst
      = (lg.writeChannels ctx).map Prod.fst := by
  obtain ⟨cs⟩ := lg
  show (cs.filterMap _).map Prod.fst = (cs.filterMap _).map Prod.fst
  induction cs with
  | nil => rfl
  | cons p rest ih =>
    simp only [List.filterMap_cons]
    by_cases hc : levelGe ctx._level p.2._level = true
    · rw [if_pos hc, if_pos hc]
      simp only [List.map_cons, ih]
    · rw [if_neg hc, if_neg hc]
      exact ih

/-- C7: a failing sink never blocks the fan-out: whatever set of sinks
fail, the fan-out visits exactly the sinks the failure-free fan-out
visits, in the same order, and every admitted sink — failing or not — is
written to, its outcome absorbed in place (the fan-out is a total
function, so no error reaches the caller or ends the worker). -/
theorem fanout_isolates_failures (lg : Logger) (fails : String → Bool)
    (ctx : LogContext) :
    ((lg.writeChannelsF fails ctx).map Prod.fst
      = (lg.writeChannels ctx).map Prod.fst)
    ∧ (∀ n ch, (n, ch) ∈ lg._channels →
        levelGe ctx._level ch._level = true →
        (n, !fails ch._name) ∈ lg.writeChannelsF fails ctx) := by
  refine ⟨writeChannelsF_keys lg fails ctx, ?_⟩
  intro n ch hmem hlev
  unfold Logger.writeChannelsF
  apply List.mem_filterMap.mpr
  refine ⟨(n, ch), hmem, ?_⟩
  rw [if_pos hlev]
  unfold LogChannel.writeE
  cases hf : fails ch._name
  · simp [hf]
  · simp [hf]

/-- C8: removing a sink name absent from the registry leaves the logger
unchanged, and looking an absent name up returns the null result; both
are total operations and neither touches the registry. -/
theorem del_get_absent (lg : Logger) (name : String)
    (habs : name ∉ lg._channels.map Prod.fst) :
    lg.del name = lg ∧ lg.get name = none := by
  obtain ⟨cs⟩ := lg
  simp only [Logger.del, Logger.get, Logger.mk.injEq]
  induction cs with
  | nil => exact ⟨rfl, rfl⟩
  | cons p rest ih =>
    simp only [List.map_cons, List.mem_cons] at habs
    push_neg at habs
    obtain ⟨hne, habs2⟩ := habs
    obtain ⟨ih1, ih2⟩ := ih habs2
    constructor
    · simp only [mapErase, if_neg hne]
      rw [ih1]
    · simp only [mapFind, if_neg hne]
      exact ih2

/-- Witness for C8: the name "zz" is not registered in the two-sink
logger. -/
theorem del_get_absent_witness :
    lgAB.del "zz" = lgAB ∧ lgAB.get "zz" = none :=
  del_get_absent lgAB "zz" (by decide)

/-- C9: `setLevel` rewrites the minimum level of exactly the sinks
registered at that moment — an entry is in the new registry iff it is an
old entry with only its level replaced — and a sink added afterwards
keeps its own level. -/
theorem setLevel_current_sinks (lg : Logger) (level : LogLevel) :
    (∀ n ch, (n, ch) ∈ (lg.setLevel level)._channels ↔
      ∃ c, (n, c) ∈ lg._channels ∧ ch = { c with _level := level })
    ∧ (∀ c : LogChannel, ((lg.setLevel level).add c).get c._name = some c) := by
  constructor
  · intro n ch
    constructor
    · intro h
      obtain ⟨⟨n2, c⟩, hmem, heq⟩ :=
        List.mem_map.mp h
      refine ⟨c, ?_, ?_⟩
      · have hn : n2 = n := congrArg Prod.fst heq
        exact hn ▸ hmem
      · exact (congrArg Prod.snd heq).symm
    · rintro ⟨c, hmem, rfl⟩
      exact List.mem_map.mpr ⟨(n, c), hmem, rfl⟩
  · intro c
    show mapFind c._name (mapInsert c._name c _) = some c
    generalize (lg.setLevel level)._channels = cs
    induction cs with
    | nil => simp [mapInsert, mapFind]
    | cons p rest ih =>
      obtain ⟨k2, v2⟩ := p
      simp only [mapInsert]
      by_cases hc : strLtb c._name k2 = true
      · rw [if_pos hc]
        simp [mapFind]
      · rw [if_neg hc]
        by_cases he : c._name = k2
        · rw [if_pos he]
          simp [mapFind]
        · rw [if_neg he]
          simp only [mapFind, if_neg he]
          exact ih

/-- C10: constructed without an explicit level argument, `LogChannel`,
`ConsoleChannel` and `FileChannel` default to minimum level `LDebug`, so
a logger whose sinks all sit at the default level delivers a Trace-level
record to no sink. -/
theorem default_level_filters_trace (name path : String) (lg : Logger)
    (ctx : LogContext)
    (hdef : ∀ p ∈ lg._channels, p.2._level = LogLevel.LDebug)
    (htr : ctx._level = LogLevel.LTrace) :
    (LogChannel.ctorDefault name)._level = LogLevel.LDebug
    ∧ ConsoleChannel.ctorDefault.toLogChannel._level = LogLevel.LDebug
    ∧ (FileChannel.ctorDefault path).toLogChannel._level = LogLevel.LDebug
    ∧ lg.writeChannels ctx = [] := by
  refine ⟨rfl, rfl, rfl, ?_⟩
  obtain ⟨cs⟩ := lg
  show cs.filterMap _ = []
  induction cs with
  | nil => rfl
  | cons p rest ih =>
    simp only [List.mem_cons, forall_eq_or_imp] at hdef
    obtain ⟨h1, h2⟩ := hdef
    simp only [List.filterMap_cons]
    rw [if_neg (by rw [h1, htr]; decide)]
    exact ih h2

/-- Witness for C10: a logger holding a default console channel drops a
Trace record. -/
theorem default_level_filters_trace_witness :
    (LogChannel.ctorDefault "x")._level = LogLevel.LDebug
    ∧ ConsoleChannel.ctorDefault.toLogChannel._level = LogLevel.LDebug
    ∧ (FileChannel.ctorDefault "p.log").toLogChannel._level = LogLevel.LDebug
    ∧ (Logger.empty.add ConsoleChannel.ctorDefault.toLogChannel).writeChannels
        ctxTrace = [] :=
  default_level_filters_trace "x" "p.log"
    (Logger.empty.add ConsoleChannel.ctorDefault.toLogChannel) ctxTrace
    (by decide) (by decide)

end toolkit
